import Mathlib

set_option maxHeartbeats 1000000

/-!
Shallow embedding of the BORE burst-penalty engine (kernel/sched/bore.c) and
the SSS CPU-placement heuristics (kernel/sched/sss.c).

Machine integers are modelled as `Nat` (unsigned) or `Int` (signed), with
explicit `% 2^w` reductions at every point where the C code can overflow or
truncate.  Host-scheduler state (run-queues, cpumasks, utilization counters,
priority-weight tables) is passed in explicitly as parameters, mirroring the
values the C code reads at the corresponding call sites.
-/

namespace KernelSched

/-! ## Constants (bore.c lines 10-15, kernel MAX_RT_PRIORITY) -/

def BORE_PENALTY_OFFSET : Nat := 25
def BORE_PENALTY_SCALE : Nat := 3180
def BORE_PENALTY_SHIFT : Nat := 12
def BORE_SMOOTHNESS : Nat := 40
def BORE_MAX_PENALTY : Nat := (40 <<< BORE_PENALTY_SHIFT) - 1
def BORE_CACHE_LIFETIME : Nat := 100000000
/-- The kernel constant `MAX_RT_PRIO` (= 100). -/
def MAX_RT_PRIORITY : Int := 100
def U64_MOD : Nat := 2 ^ 64
def U32_MOD : Nat := 2 ^ 32

/-! ## Burst penalty calculator (bore.c lines 32-51) -/

/-- `fls64`: index (1-based) of the most significant set bit; 0 for input 0. -/
def fls64 (v : Nat) : Nat := if v = 0 then 0 else Nat.log2 v + 1

/-- `log2p1_u64_u32fp` (bore.c lines 32-39): fixed-point log2-plus-one.
All u64 shifts carry an explicit `% 2^64`; the final u32 cast is `% 2^32`. -/
def log2p1_u64_u32fp (v : Nat) (fp : Nat) : Nat :=
  if v = 0 then 0
  else
    let exponent := fls64 v
    let m1 := (v <<< (64 - exponent)) % U64_MOD
    let m2 := (m1 <<< 1) % U64_MOD
    let mantissa := (m2 >>> (64 - fp)) % U32_MOD
    (exponent <<< fp) ||| mantissa

/-- `calc_burst_penalty` (bore.c lines 41-51).  `max_t(s32, 0, greed - tolerance)`
is Nat truncated subtraction; all intermediate s32 values stay far below `2^31`. -/
def calc_burst_penalty (burst_time : Nat) : Nat :=
  let greed := log2p1_u64_u32fp burst_time BORE_PENALTY_SHIFT
  let tolerance := BORE_PENALTY_OFFSET <<< BORE_PENALTY_SHIFT
  let penalty := greed - tolerance
  let scaled_penalty := (penalty * BORE_PENALTY_SCALE) >>> 10
  min BORE_MAX_PENALTY scaled_penalty

/-! ## Task burst record -/

/-- `struct sched_burst_cache`: value/count are u32, timestamp is u64. -/
structure SchedBurstCache where
  value : Nat
  count : Nat
  timestamp : Nat
deriving DecidableEq

/-- The burst-relevant fields of `struct sched_entity`, plus the
vruntime/deadline pair touched by `restart_burst_rescale_deadline`. -/
structure SchedEntity where
  burst_time : Nat
  prev_burst_penalty : Nat
  curr_burst_penalty : Nat
  burst_penalty : Nat
  burst_score : Nat
  burst_count : Nat
  child_burst : SchedBurstCache
  group_burst : SchedBurstCache
  vruntime : Int
  deadline : Int
deriving DecidableEq

/-- The task fields BORE reads: its entity, `static_prio`, the `PF_KTHREAD`
flag, and eligibility (`sched_class == &fair_sched_class && !exit_state`). -/
structure Task where
  se : SchedEntity
  static_prio : Int
  kthread : Bool
  eligible : Bool
deriving DecidableEq

/-- Conversion of a C `int` value to `u8` (two's-complement truncation). -/
def u8cast (z : Int) : Nat := (z % 256).toNat

/-- `effective_prio` (bore.c lines 62-67): u8 arithmetic throughout. -/
def effective_prio (p : Task) : Nat :=
  min 39 ((u8cast (p.static_prio - MAX_RT_PRIORITY) + p.se.burst_score) % 256)

/-- `update_burst_score` (bore.c lines 69-84).  The `reweight_task_by_prio`
call only mutates host weight state, not the burst record. -/
def update_burst_score (t : Task) : Task :=
  let burst_score :=
    if !t.kthread then (t.se.burst_penalty >>> BORE_PENALTY_SHIFT) % 256 else 0
  { t with se := { t.se with burst_score := burst_score } }

/-- `update_curr_bore` (bore.c lines 86-99). -/
def update_curr_bore (delta_exec : Nat) (t : Task) : Task :=
  let bt := (t.se.burst_time + delta_exec) % U64_MOD
  let curr := calc_burst_penalty bt
  let bp :=
    if t.se.prev_burst_penalty < curr then
      (t.se.prev_burst_penalty +
        (curr - t.se.prev_burst_penalty) / t.se.burst_count) % U32_MOD
    else t.se.burst_penalty
  update_burst_score
    { t with se :=
        { t.se with burst_time := bt, curr_burst_penalty := curr, burst_penalty := bp } }

/-- `binary_smooth` (bore.c lines 101-106).  `new > old` in C is `old < new`. -/
def binary_smooth (new old : Nat) (dumper : Nat) : Nat :=
  let abs_diff := if old < new then new - old else old - new
  let adj_diff := abs_diff / dumper + (if abs_diff % dumper = 0 then 0 else 1)
  if old < new then (old + adj_diff) % U32_MOD else old - adj_diff

/-- `__restart_burst` (bore.c lines 108-120). -/
def __restart_burst (se : SchedEntity) : SchedEntity :=
  let prev := binary_smooth se.curr_burst_penalty se.prev_burst_penalty se.burst_count
  let count :=
    if se.burst_count < BORE_SMOOTHNESS then se.burst_count + 1 else BORE_SMOOTHNESS
  { se with prev_burst_penalty := prev, burst_time := 0, curr_burst_penalty := 0,
            burst_count := count }

/-- `restart_burst` (bore.c lines 122-127). -/
def restart_burst (t : Task) : Task :=
  let se := __restart_burst t.se
  update_burst_score { t with se := { se with burst_penalty := se.prev_burst_penalty } }

/-- `mul_u64_u32_shr`: exact 128-bit product, shifted, truncated to u64. -/
def mul_u64_u32_shr (a : Nat) (mul : Nat) (shift : Nat) : Nat :=
  ((a * mul) >>> shift) % U64_MOD

/-- `restart_burst_rescale_deadline` (bore.c lines 129-144).  The kernel
weight tables `sched_prio_to_weight` / `sched_prio_to_wmult` live outside
this repository and are passed in as the host-provided functions
`weight` / `wmult`. -/
def restart_burst_rescale_deadline (weight wmult : Nat → Nat) (t : Task) : Task :=
  let vremain : Int := t.se.deadline - t.se.vruntime
  let prev_prio := effective_prio t
  let t1 := restart_burst t
  let new_prio := effective_prio t1
  if new_prio < prev_prio then
    let wremain := mul_u64_u32_shr vremain.natAbs (weight prev_prio) 10
    let vscaled_n := mul_u64_u32_shr wremain (wmult new_prio) 22
    let vscaled : Int := if vremain < 0 then -(vscaled_n : Int) else (vscaled_n : Int)
    { t1 with se := { t1.se with deadline := t1.se.vruntime + vscaled } }
  else t1

/-! ## Burst inheritance (bore.c lines 146-232) -/

/-- `bore_cache_expired` (bore.c lines 29-30): the u64 difference
`timestamp + BORE_CACHE_LIFETIME - now`, reinterpreted as s64, is negative
exactly when its high bit is set. -/
def bore_cache_expired (bc : SchedBurstCache) (now : Nat) : Bool :=
  decide (2 ^ 63 ≤
    ((bc.timestamp + BORE_CACHE_LIFETIME) % U64_MOD + (U64_MOD - now % U64_MOD)) % U64_MOD)

/-- `update_burst_cache` (bore.c lines 146-154), with the caller's own
`burst_penalty` passed as `p_penalty`. -/
def update_burst_cache (p_penalty : Nat) (cnt sum now : Nat) : SchedBurstCache :=
  let avg := if cnt = 0 then 0 else sum / cnt
  { value := max avg p_penalty, count := cnt, timestamp := now }

/-- The eligible members' burst penalties, as gathered by the aggregation
loops of `update_child_burst_direct` / `update_tg_burst`. -/
def eligible_penalties (members : List Task) : List Nat :=
  (members.filter (fun q => q.eligible)).map (fun q => q.se.burst_penalty)

/-- The aggregation loop shared by `update_child_burst_direct` (bore.c lines
156-169) and `update_tg_burst` (lines 187-200): `cnt`/`sum` are u32
accumulators, hence the `% 2^32`. -/
def aggregate_burst_cache (p_penalty : Nat) (members : List Task) (now : Nat) :
    SchedBurstCache :=
  let l := eligible_penalties members
  update_burst_cache p_penalty (l.length % U32_MOD) (l.sum % U32_MOD) now

/-- `inherit_burst_direct` / `inherit_burst_tg` (bore.c lines 171-185 and
202-211), at the already-resolved aggregation target: `bc` is the target's
cache, `p_penalty` its own `burst_penalty`, `members` its children resp.
threads.  Returns the cache actually consulted (refreshed when expired). -/
def inherit_burst (bc : SchedBurstCache) (p_penalty : Nat) (members : List Task)
    (now : Nat) : SchedBurstCache :=
  if bore_cache_expired bc now then aggregate_burst_cache p_penalty members now else bc

/-- `sched_clone_bore` (bore.c lines 213-232).  The `CLONE_THREAD` /
`CLONE_PARENT` resolution only chooses which cache / penalty / member list is
aggregated; those resolved values are the `bc` / `p_penalty` / `members`
arguments. -/
def sched_clone_bore (p : Task) (bc : SchedBurstCache) (p_penalty : Nat)
    (members : List Task) (now : Nat) : Task :=
  if p.eligible then
    let penalty := (inherit_burst bc p_penalty members now).value
    let se := __restart_burst p.se
    let v := max se.prev_burst_penalty penalty
    { p with se :=
        { se with burst_penalty := v, prev_burst_penalty := v, burst_count := 1,
                  child_burst := { se.child_burst with timestamp := 0 },
                  group_burst := { se.group_burst with timestamp := 0 } } }
  else p

/-- `reset_task_bore` (bore.c lines 234-244). -/
def reset_task_bore (t : Task) : Task :=
  { t with se :=
      { burst_time := 0, prev_burst_penalty := 0, curr_burst_penalty := 0,
        burst_penalty := 0, burst_score := 0, burst_count := 1,
        child_burst := ⟨0, 0, 0⟩, group_burst := ⟨0, 0, 0⟩,
        vruntime := t.se.vruntime, deadline := t.se.deadline } }

/-! ## SSS CPU placement (sss.c) -/

def SSS_FACTOR : Int := 1024 >>> 5
def SSS_MARGIN : Int := 1024 >>> 3

/-- The `WF_*` wake-flag bits consumed by sss.c, one Bool per bit. -/
structure WakeFlags where
  ttwu : Bool
  sync : Bool
  current_cpu : Bool
  exec : Bool
  fork : Bool
deriving DecidableEq

/-- The fields of a waking fair-class task read by `sss_select_task_rq_fair`:
its allowed-CPU mask, `p_factor = util_est & ~UTIL_AVG_UNCHANGED`,
`p_queued = task_on_rq_queued(p) || current == p`, and `wake_wide(p)`. -/
structure FairTask where
  allowed : Nat → Bool
  p_factor : Nat
  queued : Bool
  wake_wide : Bool

/-- Host state read by `sss_select_task_rq_fair`: number of possible CPUs,
active mask, the current CPU, per-CPU capacities and utilizations, the SMT
mask of a given CPU, the LLC domain span of a given CPU (when present), the
two sysctl biases, and `current->flags & PF_EXITING`. -/
structure FairEnv where
  nr_cpus : Nat
  active : Nat → Bool
  this_cpu : Nat
  capacity : Nat → Nat
  cfs_util : Nat → Nat
  rt_util : Nat → Nat
  dl_util : Nat → Nat
  smt : Nat → Nat → Bool
  llc : Nat → Option (Nat → Bool)
  smt_bias : Nat
  llc_bias : Nat
  current_exiting : Bool

/-- `cpumask_first`: smallest set CPU, or `nr` when the mask is empty. -/
def cpumask_first (nr : Nat) (mask : Nat → Bool) : Nat :=
  ((List.range nr).filter mask).headD nr

/-- `for_each_cpu` over `allowed ∩ active`, in ascending CPU order. -/
def fair_candidates (env : FairEnv) (p : FairTask) : List Nat :=
  (List.range env.nr_cpus).filter (fun c => p.allowed c && env.active c)

/-- The per-candidate score of the `for_each_cpu` loop body of
`sss_select_task_rq_fair` (sss.c lines 66-119), including the `goto out`
shortcuts for exec wakeups and busy CPUs. -/
def fair_factor (env : FairEnv) (p : FairTask) (prev_cpu : Nat) (wf : WakeFlags)
    (p_affine : Bool) (cpu : Nat) : Int :=
  let base : Int := (env.capacity cpu : Int) - (env.cfs_util cpu : Int) -
    (env.rt_util cpu : Int) - (env.dl_util cpu : Int)
  let base :=
    if p.queued then (if cpu ≠ prev_cpu then base - (p.p_factor : Int) else base)
    else base - (p.p_factor : Int)
  if wf.exec then base
  else if base < SSS_MARGIN then base
  else
    let b1 :=
      if p_affine && (cpu == env.this_cpu || cpu == prev_cpu) then base + SSS_FACTOR * 8
      else base
    let b2 :=
      if !p_affine && wf.ttwu && env.smt prev_cpu cpu then
        b1 + SSS_FACTOR * (env.smt_bias : Int)
      else b1
    match env.llc prev_cpu with
    | some m => if m cpu then b2 + SSS_FACTOR * (env.llc_bias : Int) else b2
    | none => b2

/-- The best-candidate fold shared by both selectors: replace the running
best exactly when the new factor strictly beats it (`>` for fair). -/
def sss_fold_max (f : Nat → Int) (init : Nat × Int) (l : List Nat) : Nat × Int :=
  l.foldl (fun b c => if b.2 < f c then (c, f c) else b) init

/-- Best-candidate fold of the RT selector: strict `<`. -/
def sss_fold_min (f : Nat → Int) (init : Nat × Int) (l : List Nat) : Nat × Int :=
  l.foldl (fun b c => if f c < b.2 then (c, f c) else b) init

/-- The early-return condition of the fair selector (sss.c lines 42-50):
a TTWU wakeup with the current-CPU or sync hint and the current CPU in the
candidate mask. -/
def fair_fast_path (env : FairEnv) (p : FairTask) (wf : WakeFlags) : Bool :=
  wf.ttwu && (wf.current_cpu || (wf.sync && !env.current_exiting)) &&
    (p.allowed env.this_cpu && env.active env.this_cpu)

/-- `p_affine` (sss.c line 52): TTWU wakeup, not wake_wide, current CPU in
the candidate mask. -/
def fair_affine (env : FairEnv) (p : FairTask) (wf : WakeFlags) : Bool :=
  wf.ttwu && !p.wake_wide && (p.allowed env.this_cpu && env.active env.this_cpu)

/-- `sss_select_task_rq_fair` (sss.c lines 22-129). -/
def sss_select_task_rq_fair (env : FairEnv) (p : FairTask) (prev_cpu : Nat)
    (wf : WakeFlags) : Nat :=
  if fair_candidates env p = [] then cpumask_first env.nr_cpus p.allowed
  else if fair_fast_path env p wf then env.this_cpu
  else
    (sss_fold_max (fair_factor env p prev_cpu wf (fair_affine env p wf)) (prev_cpu, 0)
      (fair_candidates env p)).1

/-- The fields of a waking RT task read by `sss_select_task_rq_rt`. -/
structure RtTask where
  allowed : Nat → Bool
  normal_prio : Int
  queued : Bool

/-- Snapshot of `cpu_rq(prev_cpu)` taken by the RT selector's preemption
check: whether `rq->curr` is non-NULL, whether `rq->donor` is an RT task,
`rq->curr->nr_cpus_allowed`, and `rq->donor->normal_prio`. -/
structure RqPrev where
  has_curr : Bool
  donor_rt : Bool
  curr_nr_cpus_allowed : Nat
  donor_normal_prio : Int

/-- Host state read by `sss_select_task_rq_rt`: the per-CPU pressure bank
`sss_rt_factor_bank`, the asymmetric-topology flag, the high-performance
mask, and the previous CPU's run-queue snapshot. -/
structure RtEnv where
  nr_cpus : Nat
  active : Nat → Bool
  bank : Nat → Int
  asymmetric : Bool
  hp : Nat → Bool
  prev_rq : RqPrev

/-- `allowed ∩ active` for the RT selector, before further pruning. -/
def rt_initial_candidates (env : RtEnv) (p : RtTask) : List Nat :=
  (List.range env.nr_cpus).filter (fun c => p.allowed c && env.active c)

/-- The candidate list the RT selector's loop runs over, after the
asymmetric high-performance intersection and the prev-CPU preemption drop
(sss.c lines 146-164). -/
def rt_candidates (env : RtEnv) (p : RtTask) (prev_cpu : Nat) (wf : WakeFlags) :
    List Nat :=
  let cpus := rt_initial_candidates env p
  let cpus :=
    if env.asymmetric && cpus.any env.hp then cpus.filter env.hp else cpus
  if (wf.ttwu || wf.fork) && env.prev_rq.has_curr && env.prev_rq.donor_rt &&
      (decide (env.prev_rq.curr_nr_cpus_allowed < 2) ||
       decide (env.prev_rq.donor_normal_prio ≤ p.normal_prio)) then
    cpus.filter (fun c => c ≠ prev_cpu)
  else cpus

/-- The per-candidate score of the RT selector's loop body
(sss.c lines 166-177). -/
def rt_factor (env : RtEnv) (p : RtTask) (prev_cpu : Nat) (cpu : Nat) : Int :=
  let pf := MAX_RT_PRIORITY - p.normal_prio
  let base := env.bank cpu
  if p.queued then (if cpu ≠ prev_cpu then base + pf else base) else base + pf

/-- `sss_select_task_rq_rt` (sss.c lines 131-187); the initial best factor
is `UINT_MAX` assigned to a `long`. -/
def sss_select_task_rq_rt (env : RtEnv) (p : RtTask) (prev_cpu : Nat)
    (wf : WakeFlags) : Nat :=
  if rt_initial_candidates env p = [] then cpumask_first env.nr_cpus p.allowed
  else
    (sss_fold_min (rt_factor env p prev_cpu) (prev_cpu, 4294967295)
      (rt_candidates env p prev_cpu wf)).1

/-- Wraparound of a mathematical integer into the s32 value range, as the
kernel's `atomic_t` add/sub experience it. -/
def wrap32 (z : Int) : Int := (z + 2 ^ 31) % 2 ^ 32 - 2 ^ 31

/-- `sss_rt_add_factor` (sss.c lines 189-192), acting on the bank state. -/
def sss_rt_add_factor (bank : Nat → Int) (cpu : Nat) (normal_prio : Int) :
    Nat → Int :=
  fun c => if c = cpu then wrap32 (bank c + (MAX_RT_PRIORITY - normal_prio)) else bank c

/-- `sss_rt_sub_factor` (sss.c lines 194-197), acting on the bank state. -/
def sss_rt_sub_factor (bank : Nat → Int) (cpu : Nat) (normal_prio : Int) :
    Nat → Int :=
  fun c => if c = cpu then wrap32 (bank c - (MAX_RT_PRIORITY - normal_prio)) else bank c

/-! ## Derived definitions used by the statements -/

/-- The burst-record invariant maintained by the state machine: the
documented bounds on `burst_penalty`, `burst_score`, `burst_count`,
together with the bounds on the `prev`/`curr` penalty fields that every
operation also maintains and that make the invariant inductive. -/
def SeInv (se : SchedEntity) : Prop :=
  se.burst_penalty ≤ BORE_MAX_PENALTY ∧
  se.burst_score ≤ 39 ∧
  1 ≤ se.burst_count ∧ se.burst_count ≤ 40 ∧
  se.prev_burst_penalty ≤ BORE_MAX_PENALTY ∧
  se.curr_burst_penalty ≤ BORE_MAX_PENALTY

instance (se : SchedEntity) : Decidable (SeInv se) := by
  unfold SeInv; infer_instance

/-- One burst restart while `curr_burst_penalty` is pinned to the constant
`c` (the setting of claim C8). -/
def restart_const (c : Nat) (se : SchedEntity) : SchedEntity :=
  __restart_burst { se with curr_burst_penalty := c }

/-- `n` repetitions of `restart_const`. -/
def restart_iter (c : Nat) (se : SchedEntity) : Nat → SchedEntity
  | 0 => se
  | n + 1 => restart_const c (restart_iter c se n)

/-- Absolute difference on Nat, the distance measure for claim C8. -/
def pdist (a b : Nat) : Nat := (a - b) + (b - a)

/-- Two-CPU demo environment of the RT placement scenario: CPU 0 carries
pressure 10, CPU 1 carries pressure 5. -/
def rtDemoEnv : RtEnv :=
  { nr_cpus := 2, active := fun _ => true,
    bank := fun c => if c = 0 then 10 else 5,
    asymmetric := false, hp := fun _ => false,
    prev_rq := ⟨false, false, 0, 0⟩ }

/-- A waking RT task (priority weight 10) that is not currently queued. -/
def rtDemoTask : RtTask :=
  { allowed := fun _ => true, normal_prio := 90, queued := false }

/-- Plain TTWU wake flags. -/
def rtDemoFlags : WakeFlags := ⟨true, false, false, false, false⟩

/-- The demo environment after `AddFactor(cpu 1, prio 90)` raised CPU 1's
accumulator to 15, above CPU 0's 10. -/
def rtDemoEnv2 : RtEnv :=
  { rtDemoEnv with bank := sss_rt_add_factor rtDemoEnv.bank 1 90 }

/-! ## Lemmas: penalty calculator -/

theorem log2p1_twelve_eq (v : Nat) (hv : v ≠ 0) (h64 : v < 2 ^ 64) :
    log2p1_u64_u32fp v 12 =
      (Nat.log2 v + 1) * 4096 + (v - 2 ^ Nat.log2 v) * 4096 / 2 ^ Nat.log2 v := by
  simp only [log2p1_u64_u32fp, fls64, if_neg hv]
  set L := Nat.log2 v with hLdef
  have hL : L ≤ 63 := by
    have := (Nat.log2_lt hv).mpr h64
    omega
  have h2L : (0:Nat) < 2 ^ L := Nat.two_pow_pos _
  have hle : 2 ^ L ≤ v := Nat.log2_self_le hv
  have hlt : v < 2 ^ (L + 1) := Nat.lt_log2_self
  set r := v - 2 ^ L with hrdef
  have hr : r < 2 ^ L := by
    have hp : 2 ^ (L + 1) = 2 ^ L + 2 ^ L := by rw [pow_succ]; ring
    omega
  have hvr : v = 2 ^ L + r := by omega
  have e0 : 64 - (L + 1) = 63 - L := by omega
  have em1 : (v <<< (63 - L)) % U64_MOD = v * 2 ^ (63 - L) := by
    rw [Nat.shiftLeft_eq]
    apply Nat.mod_eq_of_lt
    calc v * 2 ^ (63 - L) < 2 ^ (L + 1) * 2 ^ (63 - L) :=
          mul_lt_mul_of_pos_right hlt (by positivity)
      _ = 2 ^ 64 := by rw [← pow_add]; congr 1; omega
  have em2 : ((v * 2 ^ (63 - L)) <<< 1) % U64_MOD = r * 2 ^ (64 - L) := by
    rw [Nat.shiftLeft_eq, pow_one]
    have hsplit : v * 2 ^ (63 - L) * 2 = 2 ^ 64 + r * 2 ^ (64 - L) := by
      rw [hvr, add_mul, add_mul]
      congr 1
      · rw [mul_assoc, ← pow_succ, ← pow_add]; congr 1; omega
      · rw [mul_assoc, ← pow_succ]; congr 2; omega
    have hlt2 : r * 2 ^ (64 - L) < 2 ^ 64 := by
      calc r * 2 ^ (64 - L) < 2 ^ L * 2 ^ (64 - L) :=
            mul_lt_mul_of_pos_right hr (by positivity)
        _ = 2 ^ 64 := by rw [← pow_add]; congr 1; omega
    show (v * 2 ^ (63 - L) * 2) % 2 ^ 64 = r * 2 ^ (64 - L)
    rw [hsplit, Nat.add_mod_left, Nat.mod_eq_of_lt hlt2]
  have em3 : (r * 2 ^ (64 - L)) >>> (64 - 12) = r * 4096 / 2 ^ L := by
    rw [Nat.shiftRight_eq_div_pow]
    show r * 2 ^ (64 - L) / 2 ^ 52 = r * 4096 / 2 ^ L
    have d1 : r * 2 ^ (64 - L) / 2 ^ 52 = r * 2 ^ 64 / 2 ^ (52 + L) := by
      calc r * 2 ^ (64 - L) / 2 ^ 52
          = r * 2 ^ (64 - L) * 2 ^ L / (2 ^ 52 * 2 ^ L) :=
            (Nat.mul_div_mul_right _ _ h2L).symm
        _ = r * 2 ^ 64 / 2 ^ (52 + L) := by
            rw [mul_assoc, ← pow_add, ← pow_add]
            have hx : 64 - L + L = 64 := by omega
            rw [hx]
    have d2 : r * 4096 / 2 ^ L = r * 2 ^ 64 / 2 ^ (52 + L) := by
      calc r * 4096 / 2 ^ L
          = r * 4096 * 2 ^ 52 / (2 ^ L * 2 ^ 52) :=
            (Nat.mul_div_mul_right _ _ (by positivity)).symm
        _ = r * 2 ^ 64 / 2 ^ (52 + L) := by
            have hx : (4096 : Nat) * 2 ^ 52 = 2 ^ 64 := by norm_num
            have hy : L + 52 = 52 + L := Nat.add_comm _ _
            rw [mul_assoc, ← pow_add, hx, hy]
    rw [d1, d2]
  have hm : r * 4096 / 2 ^ L < 4096 := by
    rw [Nat.div_lt_iff_lt_mul h2L]
    calc r * 4096 < 2 ^ L * 4096 := mul_lt_mul_of_pos_right hr (by norm_num)
      _ = 4096 * 2 ^ L := mul_comm _ _
  have em4 : (r * 4096 / 2 ^ L) % U32_MOD = r * 4096 / 2 ^ L :=
    Nat.mod_eq_of_lt (lt_of_lt_of_le hm (by norm_num [U32_MOD]))
  rw [e0, em1, em2, em3, em4, Nat.shiftLeft_eq, mul_comm (L + 1) (2 ^ 12),
    ← Nat.mul_add_lt_is_or (by exact hm) (L + 1)]

theorem log2p1_twelve_mono {a b : Nat} (hab : a ≤ b) (h64 : b < 2 ^ 64) :
    log2p1_u64_u32fp a 12 ≤ log2p1_u64_u32fp b 12 := by
  rcases Nat.eq_zero_or_pos a with ha0 | ha0
  · simp [ha0, log2p1_u64_u32fp]
  have ha : a ≠ 0 := Nat.pos_iff_ne_zero.mp ha0
  have hb : b ≠ 0 := by omega
  have ha64 : a < 2 ^ 64 := lt_of_le_of_lt hab h64
  rw [log2p1_twelve_eq a ha ha64, log2p1_twelve_eq b hb h64]
  have hlog : Nat.log2 a ≤ Nat.log2 b :=
    (Nat.le_log2 hb).mpr (le_trans (Nat.log2_self_le ha) hab)
  rcases Nat.lt_or_ge (Nat.log2 a) (Nat.log2 b) with hlt | hge
  · -- strictly larger exponent: the whole first term already dominates
    have hm : (a - 2 ^ Nat.log2 a) * 4096 / 2 ^ Nat.log2 a < 4096 := by
      have h2L : (0:Nat) < 2 ^ Nat.log2 a := Nat.two_pow_pos _
      rw [Nat.div_lt_iff_lt_mul h2L]
      have hr : a - 2 ^ Nat.log2 a < 2 ^ Nat.log2 a := by
        have h1 : 2 ^ Nat.log2 a ≤ a := Nat.log2_self_le ha
        have h2 : a < 2 ^ (Nat.log2 a + 1) := Nat.lt_log2_self
        have hp : 2 ^ (Nat.log2 a + 1) = 2 ^ Nat.log2 a + 2 ^ Nat.log2 a := by
          rw [pow_succ]; ring
        omega
      calc (a - 2 ^ Nat.log2 a) * 4096 < 2 ^ Nat.log2 a * 4096 :=
            mul_lt_mul_of_pos_right hr (by norm_num)
        _ = 4096 * 2 ^ Nat.log2 a := mul_comm _ _
    have hsum : (Nat.log2 a + 1) * 4096 + (a - 2 ^ Nat.log2 a) * 4096 / 2 ^ Nat.log2 a
        < (Nat.log2 a + 2) * 4096 := by omega
    have h2 : (Nat.log2 a + 2) * 4096 ≤ (Nat.log2 b + 1) * 4096 := by
      have hd : Nat.log2 a + 2 ≤ Nat.log2 b + 1 := by omega
      exact Nat.mul_le_mul_right _ hd
    exact le_trans (le_of_lt (lt_of_lt_of_le hsum h2)) (Nat.le_add_right _ _)
  · have heq : Nat.log2 a = Nat.log2 b := le_antisymm hlog hge
    rw [heq]
    apply Nat.add_le_add_left
    apply Nat.div_le_div_right
    apply Nat.mul_le_mul_right
    omega

theorem calc_burst_penalty_mono {a b : Nat} (hab : a ≤ b) (h64 : b < 2 ^ 64) :
    calc_burst_penalty a ≤ calc_burst_penalty b := by
  unfold calc_burst_penalty
  simp only [Nat.shiftRight_eq_div_pow]
  have h := log2p1_twelve_mono hab h64
  exact min_le_min (le_refl _)
    (Nat.div_le_div_right (Nat.mul_le_mul_right _ (Nat.sub_le_sub_right h _)))

theorem calc_burst_penalty_le_max (v : Nat) :
    calc_burst_penalty v ≤ BORE_MAX_PENALTY :=
  min_le_left _ _

theorem calc_burst_penalty_zero : calc_burst_penalty 0 = 0 := by decide

/-- C1: `calc_burst_penalty` is monotonically non-decreasing over the u64
input range, bounded by `BORE_MAX_PENALTY = (40 << 12) - 1`, and returns 0
on burst_time 0. -/
theorem claim_C1_calc_burst_penalty :
    (∀ a b : Nat, a ≤ b → b < 2 ^ 64 → calc_burst_penalty a ≤ calc_burst_penalty b) ∧
    (∀ v : Nat, calc_burst_penalty v ≤ BORE_MAX_PENALTY) ∧
    BORE_MAX_PENALTY = (40 <<< 12) - 1 ∧
    calc_burst_penalty 0 = 0 :=
  ⟨fun _ _ hab h64 => calc_burst_penalty_mono hab h64,
   calc_burst_penalty_le_max, rfl, calc_burst_penalty_zero⟩

/-- Witness for C1 at concrete inputs. -/
theorem claim_C1_witness :
    calc_burst_penalty (2 ^ 30) ≤ calc_burst_penalty (2 ^ 31) :=
  claim_C1_calc_burst_penalty.1 (2 ^ 30) (2 ^ 31) (by norm_num) (by norm_num)

/-! ## Lemmas: smoothing arithmetic -/

theorem ceil_div_eq (d c : Nat) (hc : 1 ≤ c) :
    d / c + (if d % c = 0 then 0 else 1) = (d + c - 1) / c := by
  rcases Nat.lt_or_ge (d % c) 1 with hr | hr
  · have hr0 : d % c = 0 := by omega
    have hdm := Nat.div_add_mod d c
    have he : d + c - 1 = c - 1 + c * (d / c) := by omega
    rw [hr0, if_pos rfl, he, Nat.add_mul_div_left _ _ (by omega : 0 < c),
      Nat.div_eq_of_lt (by omega : c - 1 < c)]
    omega
  · have hne : ¬ d % c = 0 := by omega
    have hmod : d % c < c := Nat.mod_lt _ (by omega)
    have hdm := Nat.div_add_mod d c
    have hx : c * (d / c + 1) = c * (d / c) + c := by ring
    have he : d + c - 1 = (d % c - 1) + c * (d / c + 1) := by omega
    rw [if_neg hne, he, Nat.add_mul_div_left _ _ (by omega : 0 < c),
      Nat.div_eq_of_lt (by omega : d % c - 1 < c)]
    omega

theorem ceil_div_le_self (d c : Nat) (hc : 1 ≤ c) (hd : 1 ≤ d) :
    (d + c - 1) / c ≤ d := by
  have h0 : d ≤ c * d := Nat.le_mul_of_pos_left d (by omega)
  have h1 : d + c - 1 ≤ c - 1 + c * d := by omega
  calc (d + c - 1) / c ≤ (c - 1 + c * d) / c := Nat.div_le_div_right h1
    _ = d := by
        rw [Nat.add_mul_div_left _ _ (by omega : 0 < c),
          Nat.div_eq_of_lt (by omega : c - 1 < c)]
        omega

theorem ceil_div_pos (d c : Nat) (hc : 1 ≤ c) (hd : 1 ≤ d) :
    1 ≤ (d + c - 1) / c := by
  rw [Nat.one_le_div_iff (by omega)]
  omega

/-- Closed form of `binary_smooth`: move `old` toward `new` by
`ceil(|new - old| / dumper)`, with no u32 wraparound when `new < 2^32`. -/
theorem binary_smooth_eq (new old c : Nat) (hc : 1 ≤ c) (hnew : new < 2 ^ 32) :
    binary_smooth new old c =
      if old < new then old + (new - old + c - 1) / c
      else old - (old - new + c - 1) / c := by
  unfold binary_smooth
  by_cases h : old < new
  · simp only [if_pos h]
    rw [ceil_div_eq _ _ hc]
    have hle : (new - old + c - 1) / c ≤ new - old :=
      ceil_div_le_self _ _ hc (by omega)
    have hlt : old + (new - old + c - 1) / c < U32_MOD := by
      have : U32_MOD = 2 ^ 32 := rfl
      omega
    exact Nat.mod_eq_of_lt hlt
  · simp only [if_neg h]
    rw [ceil_div_eq _ _ hc]

/-- `binary_smooth` stays between `old` and `new` (on the moving side). -/
theorem binary_smooth_le_max (new old c : Nat) (hc : 1 ≤ c) (hnew : new < 2 ^ 32) :
    binary_smooth new old c ≤ max new old := by
  rw [binary_smooth_eq new old c hc hnew]
  by_cases h : old < new
  · simp only [if_pos h]
    have hle : (new - old + c - 1) / c ≤ new - old :=
      ceil_div_le_self _ _ hc (by omega)
    exact le_trans (by omega) (le_max_left _ _)
  · simp only [if_neg h]
    exact le_trans (Nat.sub_le _ _) (le_max_right _ _)

/-! ## Lemmas: tick and restart -/

theorem update_curr_bore_se (delta : Nat) (t : Task) :
    (update_curr_bore delta t).se.burst_time = (t.se.burst_time + delta) % U64_MOD ∧
    (update_curr_bore delta t).se.curr_burst_penalty
      = calc_burst_penalty ((t.se.burst_time + delta) % U64_MOD) ∧
    (update_curr_bore delta t).se.burst_penalty
      = (if t.se.prev_burst_penalty
            < calc_burst_penalty ((t.se.burst_time + delta) % U64_MOD) then
          (t.se.prev_burst_penalty +
            (calc_burst_penalty ((t.se.burst_time + delta) % U64_MOD)
              - t.se.prev_burst_penalty) / t.se.burst_count) % U32_MOD
         else t.se.burst_penalty) ∧
    (update_curr_bore delta t).se.prev_burst_penalty = t.se.prev_burst_penalty ∧
    (update_curr_bore delta t).se.burst_count = t.se.burst_count ∧
    (update_curr_bore delta t).se.burst_score
      = (if !t.kthread then
          ((update_curr_bore delta t).se.burst_penalty >>> BORE_PENALTY_SHIFT) % 256
         else 0) := by
  unfold update_curr_bore update_burst_score
  by_cases h : t.se.prev_burst_penalty
      < calc_burst_penalty ((t.se.burst_time + delta) % U64_MOD) <;>
    simp [h]

/-- Dividing a bounded penalty by `2^12` respects the bound. -/
theorem shiftRight12_le (x y : Nat) (h : x ≤ y) :
    x >>> BORE_PENALTY_SHIFT ≤ y / 4096 := by
  rw [Nat.shiftRight_eq_div_pow]
  have h12 : (2:Nat) ^ BORE_PENALTY_SHIFT = 4096 := rfl
  rw [h12]
  exact Nat.div_le_div_right h

/-- The tick's incremental-mean update never exceeds the new penalty. -/
theorem tick_mean_le (cnt : Nat) {prev curr : Nat} (h : prev < curr) :
    prev + (curr - prev) / cnt ≤ curr := by
  have := Nat.div_le_self (curr - prev) cnt
  omega

/-- C3: the tick operation adds `delta_exec` to `burst_time` (u64),
recomputes `curr_burst_penalty`, bumps `burst_penalty` by the
`burst_count`-damped truncated mean increment exactly when the new penalty
exceeds `prev_burst_penalty` (leaving it unchanged otherwise), and the
recomputed `burst_score` is `burst_penalty >> 12`, except that kernel
threads always score 0. -/
theorem claim_C3_update_curr_bore (t : Task) (delta : Nat)
    (hcnt : 1 ≤ t.se.burst_count) (hbp : t.se.burst_penalty ≤ BORE_MAX_PENALTY) :
    (update_curr_bore delta t).se.burst_time = (t.se.burst_time + delta) % U64_MOD ∧
    (update_curr_bore delta t).se.curr_burst_penalty
      = calc_burst_penalty ((t.se.burst_time + delta) % U64_MOD) ∧
    (t.se.prev_burst_penalty < calc_burst_penalty ((t.se.burst_time + delta) % U64_MOD) →
      (update_curr_bore delta t).se.burst_penalty
        = t.se.prev_burst_penalty +
            (calc_burst_penalty ((t.se.burst_time + delta) % U64_MOD)
              - t.se.prev_burst_penalty) / t.se.burst_count) ∧
    (¬ t.se.prev_burst_penalty
        < calc_burst_penalty ((t.se.burst_time + delta) % U64_MOD) →
      (update_curr_bore delta t).se.burst_penalty = t.se.burst_penalty) ∧
    (update_curr_bore delta t).se.burst_score
      = (if t.kthread then 0
         else (update_curr_bore delta t).se.burst_penalty >>> BORE_PENALTY_SHIFT) := by
  obtain ⟨e1, e2, e3, e4, e5, e6⟩ := update_curr_bore_se delta t
  have hmax : BORE_MAX_PENALTY = 163839 := rfl
  have hcalc := calc_burst_penalty_le_max ((t.se.burst_time + delta) % U64_MOD)
  have hbp' : (update_curr_bore delta t).se.burst_penalty ≤ BORE_MAX_PENALTY := by
    rw [e3]
    by_cases h : t.se.prev_burst_penalty
        < calc_burst_penalty ((t.se.burst_time + delta) % U64_MOD)
    · rw [if_pos h]
      have hle := tick_mean_le t.se.burst_count h
      have : U32_MOD = 4294967296 := rfl
      rw [Nat.mod_eq_of_lt (by omega)]
      omega
    · rw [if_neg h]; exact hbp
  refine ⟨e1, e2, ?_, ?_, ?_⟩
  · intro h
    rw [e3, if_pos h]
    have hle := tick_mean_le t.se.burst_count h
    have : U32_MOD = 4294967296 := rfl
    exact Nat.mod_eq_of_lt (by omega)
  · intro h
    rw [e3, if_neg h]
  · rcases hk : t.kthread with hf | ht
    · rw [e6, hk, Bool.not_false, if_pos rfl, if_neg Bool.false_ne_true]
      have hsc := shiftRight12_le _ _ hbp'
      have h39 : BORE_MAX_PENALTY / 4096 = 39 := rfl
      exact Nat.mod_eq_of_lt
        (lt_of_le_of_lt (le_trans hsc (le_of_eq h39)) (by norm_num))
    · rw [e6, hk, Bool.not_true, if_neg Bool.false_ne_true, if_pos rfl]

/-- C4: full characterisation of `restart_burst`'s effect on the burst
record: binary smoothing of `prev_burst_penalty` toward
`curr_burst_penalty` by `ceil(|diff| / burst_count)` in the direction of
the difference, zeroing of `burst_time` and `curr_burst_penalty`,
saturating increment of `burst_count`, and `burst_penalty :=
prev_burst_penalty`. -/
theorem claim_C4_restart_burst (t : Task)
    (hcnt : 1 ≤ t.se.burst_count) (hcurr : t.se.curr_burst_penalty < 2 ^ 32) :
    (restart_burst t).se.prev_burst_penalty
      = (if t.se.prev_burst_penalty < t.se.curr_burst_penalty then
          t.se.prev_burst_penalty +
            (t.se.curr_burst_penalty - t.se.prev_burst_penalty
              + t.se.burst_count - 1) / t.se.burst_count
         else
          t.se.prev_burst_penalty -
            (t.se.prev_burst_penalty - t.se.curr_burst_penalty
              + t.se.burst_count - 1) / t.se.burst_count) ∧
    (restart_burst t).se.burst_time = 0 ∧
    (restart_burst t).se.curr_burst_penalty = 0 ∧
    (restart_burst t).se.burst_count = min (t.se.burst_count + 1) 40 ∧
    (restart_burst t).se.burst_penalty = (restart_burst t).se.prev_burst_penalty := by
  have hsm := binary_smooth_eq t.se.curr_burst_penalty t.se.prev_burst_penalty
    t.se.burst_count hcnt hcurr
  unfold restart_burst __restart_burst update_burst_score
  refine ⟨?_, by simp, by simp, ?_, ?_⟩
  · simpa using hsm
  · simp only [BORE_SMOOTHNESS]
    by_cases h : t.se.burst_count < 40 <;> simp [h] <;> omega
  · by_cases hk : t.kthread <;> simp [hk]

/-- Witness for C3 on a concrete record. -/
theorem claim_C3_witness :
    (update_curr_bore 5 ⟨⟨0, 0, 0, 0, 0, 1, ⟨0, 0, 0⟩, ⟨0, 0, 0⟩, 0, 0⟩,
        120, false, true⟩).se.burst_time = (0 + 5) % U64_MOD :=
  (claim_C3_update_curr_bore
    ⟨⟨0, 0, 0, 0, 0, 1, ⟨0, 0, 0⟩, ⟨0, 0, 0⟩, 0, 0⟩, 120, false, true⟩ 5
    (by decide) (by decide)).1

/-- Witness for C4 on a concrete record. -/
theorem claim_C4_witness :
    (restart_burst ⟨⟨77, 4, 10, 10, 0, 3, ⟨0, 0, 0⟩, ⟨0, 0, 0⟩, 0, 0⟩,
        120, false, true⟩).se.burst_time = 0 :=
  (claim_C4_restart_burst
    ⟨⟨77, 4, 10, 10, 0, 3, ⟨0, 0, 0⟩, ⟨0, 0, 0⟩, 0, 0⟩, 120, false, true⟩
    (by decide) (by decide)).2.1

/-! ## Lemmas: the burst-record invariant (claim C2) -/

theorem update_curr_bp_le (d : Nat) (t : Task)
    (hbp : t.se.burst_penalty ≤ BORE_MAX_PENALTY) :
    (update_curr_bore d t).se.burst_penalty ≤ BORE_MAX_PENALTY := by
  obtain ⟨e1, e2, e3, e4, e5, e6⟩ := update_curr_bore_se d t
  rw [e3]
  by_cases h : t.se.prev_burst_penalty
      < calc_burst_penalty ((t.se.burst_time + d) % U64_MOD)
  · rw [if_pos h]
    have hle := tick_mean_le t.se.burst_count h
    have hc := calc_burst_penalty_le_max ((t.se.burst_time + d) % U64_MOD)
    have hmax : BORE_MAX_PENALTY = 163839 := rfl
    have hu : U32_MOD = 4294967296 := rfl
    rw [Nat.mod_eq_of_lt (by omega)]
    omega
  · rw [if_neg h]; exact hbp

/-- A burst score computed from a penalty within bounds stays within 39. -/
theorem score_expr_le (b : Bool) (x : Nat) (hx : x ≤ BORE_MAX_PENALTY) :
    (if !b then (x >>> BORE_PENALTY_SHIFT) % 256 else 0) ≤ 39 := by
  rcases b with _ | _
  · rw [Bool.not_false, if_pos rfl]
    have h1 := Nat.mod_le (x >>> BORE_PENALTY_SHIFT) 256
    have h2 := shiftRight12_le x BORE_MAX_PENALTY hx
    have h39 : BORE_MAX_PENALTY / 4096 = 39 := rfl
    omega
  · rw [Bool.not_true, if_neg Bool.false_ne_true]
    omega

theorem __restart_burst_se (se : SchedEntity) :
    (__restart_burst se).prev_burst_penalty
      = binary_smooth se.curr_burst_penalty se.prev_burst_penalty se.burst_count ∧
    (__restart_burst se).burst_time = 0 ∧
    (__restart_burst se).curr_burst_penalty = 0 ∧
    (__restart_burst se).burst_score = se.burst_score ∧
    (__restart_burst se).burst_count
      = (if se.burst_count < BORE_SMOOTHNESS then se.burst_count + 1
         else BORE_SMOOTHNESS) := by
  unfold __restart_burst
  exact ⟨rfl, rfl, rfl, rfl, rfl⟩

theorem restart_burst_se (t : Task) :
    (restart_burst t).se.prev_burst_penalty
      = binary_smooth t.se.curr_burst_penalty t.se.prev_burst_penalty t.se.burst_count ∧
    (restart_burst t).se.burst_penalty
      = binary_smooth t.se.curr_burst_penalty t.se.prev_burst_penalty t.se.burst_count ∧
    (restart_burst t).se.burst_time = 0 ∧
    (restart_burst t).se.curr_burst_penalty = 0 ∧
    (restart_burst t).se.burst_count
      = (if t.se.burst_count < BORE_SMOOTHNESS then t.se.burst_count + 1
         else BORE_SMOOTHNESS) ∧
    (restart_burst t).se.burst_score
      = (if !t.kthread then
          ((restart_burst t).se.burst_penalty >>> BORE_PENALTY_SHIFT) % 256 else 0) := by
  unfold restart_burst __restart_burst update_burst_score
  exact ⟨rfl, rfl, rfl, rfl, rfl, rfl⟩

theorem seinv_update_curr (d : Nat) (t : Task) (h : SeInv t.se) :
    SeInv (update_curr_bore d t).se := by
  obtain ⟨i1, i2, i3, i4, i5, i6⟩ := h
  obtain ⟨e1, e2, e3, e4, e5, e6⟩ := update_curr_bore_se d t
  have hbp' := update_curr_bp_le d t i1
  refine ⟨hbp', ?_, ?_, ?_, ?_, ?_⟩
  · rw [e6]; exact score_expr_le t.kthread _ hbp'
  · rw [e5]; exact i3
  · rw [e5]; exact i4
  · rw [e4]; exact i5
  · rw [e2]; exact calc_burst_penalty_le_max _

theorem smooth_le_max_penalty (t : Task) (h3 : 1 ≤ t.se.burst_count)
    (h5 : t.se.prev_burst_penalty ≤ BORE_MAX_PENALTY)
    (h6 : t.se.curr_burst_penalty ≤ BORE_MAX_PENALTY) :
    binary_smooth t.se.curr_burst_penalty t.se.prev_burst_penalty t.se.burst_count
      ≤ BORE_MAX_PENALTY := by
  have hmax32 : BORE_MAX_PENALTY < 2 ^ 32 := by decide
  have hb := binary_smooth_le_max t.se.curr_burst_penalty t.se.prev_burst_penalty
    t.se.burst_count h3 (lt_of_le_of_lt h6 hmax32)
  have hmx : max t.se.curr_burst_penalty t.se.prev_burst_penalty
      ≤ BORE_MAX_PENALTY := max_le h6 h5
  omega

theorem seinv_restart (t : Task) (h : SeInv t.se) : SeInv (restart_burst t).se := by
  obtain ⟨i1, i2, i3, i4, i5, i6⟩ := h
  obtain ⟨r1, r2, r3, r4, r5, r6⟩ := restart_burst_se t
  have hsm := smooth_le_max_penalty t i3 i5 i6
  have h40 : BORE_SMOOTHNESS = 40 := rfl
  refine ⟨?_, ?_, ?_, ?_, ?_, ?_⟩
  · rw [r2]; exact hsm
  · rw [r6]; apply score_expr_le; rw [r2]; exact hsm
  · rw [r5]
    by_cases hc : t.se.burst_count < BORE_SMOOTHNESS
    · rw [if_pos hc]; omega
    · rw [if_neg hc]; omega
  · rw [r5]
    by_cases hc : t.se.burst_count < BORE_SMOOTHNESS
    · rw [if_pos hc]; omega
    · rw [if_neg hc]; omega
  · rw [r1]; exact hsm
  · rw [r4]; exact Nat.zero_le _

/-- `restart_burst_rescale_deadline` only changes the deadline beyond what
`restart_burst` does: all burst fields coincide. -/
theorem rescale_se_eq (weight wmult : Nat → Nat) (t : Task) :
    (restart_burst_rescale_deadline weight wmult t).se.burst_penalty
      = (restart_burst t).se.burst_penalty ∧
    (restart_burst_rescale_deadline weight wmult t).se.burst_score
      = (restart_burst t).se.burst_score ∧
    (restart_burst_rescale_deadline weight wmult t).se.burst_count
      = (restart_burst t).se.burst_count ∧
    (restart_burst_rescale_deadline weight wmult t).se.prev_burst_penalty
      = (restart_burst t).se.prev_burst_penalty ∧
    (restart_burst_rescale_deadline weight wmult t).se.curr_burst_penalty
      = (restart_burst t).se.curr_burst_penalty ∧
    (restart_burst_rescale_deadline weight wmult t).se.burst_time
      = (restart_burst t).se.burst_time := by
  simp only [restart_burst_rescale_deadline]
  split
  · exact ⟨rfl, rfl, rfl, rfl, rfl, rfl⟩
  · exact ⟨rfl, rfl, rfl, rfl, rfl, rfl⟩

theorem seinv_rescale (weight wmult : Nat → Nat) (t : Task) (h : SeInv t.se) :
    SeInv (restart_burst_rescale_deadline weight wmult t).se := by
  obtain ⟨q1, q2, q3, q4, q5, q6⟩ := rescale_se_eq weight wmult t
  obtain ⟨j1, j2, j3, j4, j5, j6⟩ := seinv_restart t h
  exact ⟨q1 ▸ j1, q2 ▸ j2, q3 ▸ j3, q3 ▸ j4, q4 ▸ j5, q5 ▸ j6⟩

theorem inherit_burst_value_le (bc : SchedBurstCache) (pp : Nat) (members : List Task)
    (now : Nat) (hbc : bc.value ≤ BORE_MAX_PENALTY) (hpp : pp ≤ BORE_MAX_PENALTY)
    (hmem : ∀ q ∈ members, q.se.burst_penalty ≤ BORE_MAX_PENALTY)
    (hlen : members.length < 2 ^ 32) :
    (inherit_burst bc pp members now).value ≤ BORE_MAX_PENALTY := by
  unfold inherit_burst
  split
  · unfold aggregate_burst_cache update_burst_cache
    set l := eligible_penalties members with hl
    have hlx : ∀ x ∈ l, x ≤ BORE_MAX_PENALTY := by
      intro x hx
      rw [hl] at hx
      unfold eligible_penalties at hx
      obtain ⟨q, hq, rfl⟩ := List.mem_map.mp hx
      exact hmem q (List.mem_of_mem_filter hq)
    have hsum : l.sum ≤ l.length * BORE_MAX_PENALTY := by
      have hs := List.sum_le_card_nsmul l BORE_MAX_PENALTY hlx
      simpa [smul_eq_mul] using hs
    have hll : l.length ≤ members.length := by
      rw [hl]
      unfold eligible_penalties
      rw [List.length_map]
      exact List.length_filter_le _ _
    have hl32 : l.length % U32_MOD = l.length := by
      apply Nat.mod_eq_of_lt
      have hu : U32_MOD = 2 ^ 32 := rfl
      omega
    show max (if l.length % U32_MOD = 0 then 0
        else (l.sum % U32_MOD) / (l.length % U32_MOD)) pp ≤ BORE_MAX_PENALTY
    apply max_le _ hpp
    by_cases hz : l.length % U32_MOD = 0
    · rw [if_pos hz]; exact Nat.zero_le _
    · rw [if_neg hz, hl32]
      have hpos : 0 < l.length := by rw [hl32] at hz; omega
      have hsum2 : l.sum % U32_MOD ≤ l.sum := Nat.mod_le _ _
      calc (l.sum % U32_MOD) / l.length
          ≤ (l.length * BORE_MAX_PENALTY) / l.length := Nat.div_le_div_right (by omega)
        _ = BORE_MAX_PENALTY := Nat.mul_div_cancel_left _ hpos
  · exact hbc

theorem sched_clone_bore_se (t : Task) (bc : SchedBurstCache) (pp : Nat)
    (members : List Task) (now : Nat) (he : t.eligible = true) :
    (sched_clone_bore t bc pp members now).se.prev_burst_penalty
      = max (__restart_burst t.se).prev_burst_penalty
          (inherit_burst bc pp members now).value ∧
    (sched_clone_bore t bc pp members now).se.burst_penalty
      = max (__restart_burst t.se).prev_burst_penalty
          (inherit_burst bc pp members now).value ∧
    (sched_clone_bore t bc pp members now).se.burst_count = 1 ∧
    (sched_clone_bore t bc pp members now).se.burst_score = t.se.burst_score ∧
    (sched_clone_bore t bc pp members now).se.curr_burst_penalty = 0 ∧
    (sched_clone_bore t bc pp members now).se.burst_time = 0 ∧
    (sched_clone_bore t bc pp members now).se.child_burst.timestamp = 0 ∧
    (sched_clone_bore t bc pp members now).se.group_burst.timestamp = 0 := by
  unfold sched_clone_bore
  rw [if_pos he]
  exact ⟨rfl, rfl, rfl, rfl, rfl, rfl, rfl, rfl⟩

theorem seinv_clone (t : Task) (bc : SchedBurstCache) (pp : Nat) (members : List Task)
    (now : Nat) (h : SeInv t.se)
    (hv : (inherit_burst bc pp members now).value ≤ BORE_MAX_PENALTY) :
    SeInv (sched_clone_bore t bc pp members now).se := by
  obtain ⟨i1, i2, i3, i4, i5, i6⟩ := h
  rcases he : t.eligible with hf | ht
  · have hne : ¬ (t.eligible = true) := by rw [he]; exact Bool.false_ne_true
    unfold sched_clone_bore
    rw [if_neg hne]
    exact ⟨i1, i2, i3, i4, i5, i6⟩
  · obtain ⟨c1, c2, c3, c4, c5, c6, c7, c8⟩ := sched_clone_bore_se t bc pp members now he
    obtain ⟨r1, r2, r3, r4, r5⟩ := __restart_burst_se t.se
    have hsm : (__restart_burst t.se).prev_burst_penalty ≤ BORE_MAX_PENALTY := by
      rw [r1]; exact smooth_le_max_penalty t i3 i5 i6
    refine ⟨?_, ?_, ?_, ?_, ?_, ?_⟩
    · rw [c2]; exact max_le hsm hv
    · rw [c4]; exact i2
    · rw [c3]
    · rw [c3]; omega
    · rw [c1]; exact max_le hsm hv
    · rw [c5]; exact Nat.zero_le _

theorem seinv_reset (t : Task) : SeInv (reset_task_bore t).se := by
  refine ⟨Nat.zero_le _, ?_, ?_, ?_, Nat.zero_le _, Nat.zero_le _⟩
  · exact (show (0:Nat) ≤ 39 by norm_num)
  · exact le_refl 1
  · exact (show (1:Nat) ≤ 40 by norm_num)

theorem effective_prio_le_39 (p : Task) : effective_prio p ≤ 39 :=
  min_le_left _ _

theorem effective_prio_eq (p : Task) (h1 : 100 ≤ p.static_prio)
    (h2 : p.static_prio ≤ 139) (h3 : p.se.burst_score ≤ 39) :
    effective_prio p = min 39 ((p.static_prio - 100).toNat + p.se.burst_score) := by
  unfold effective_prio u8cast MAX_RT_PRIORITY
  omega

/-- C2: every burst-state-machine operation preserves the record invariant
(`burst_penalty ∈ [0, MAX]`, `burst_score ∈ [0,39]`, `burst_count ∈ [1,40]`,
with the auxiliary `prev`/`curr` penalty bounds that keep it inductive);
`reset_task_bore` establishes it outright; the invariant entails the claimed
field bounds; and the effective priority is `static_priority + burst_score`
clamped to at most 39.  For `sched_clone_bore`, the inherited cache value,
the aggregation source's own penalty and the aggregated members are assumed
to satisfy the same penalty bound, which the invariant gives for every task
in the system. -/
theorem claim_C2_burst_invariant :
    (∀ (t : Task) (d : Nat), SeInv t.se → SeInv (update_curr_bore d t).se) ∧
    (∀ (t : Task), SeInv t.se → SeInv (restart_burst t).se) ∧
    (∀ (weight wmult : Nat → Nat) (t : Task), SeInv t.se →
      SeInv (restart_burst_rescale_deadline weight wmult t).se) ∧
    (∀ (t : Task) (bc : SchedBurstCache) (pp : Nat) (members : List Task) (now : Nat),
      SeInv t.se → bc.value ≤ BORE_MAX_PENALTY →
      pp ≤ BORE_MAX_PENALTY →
      (∀ q ∈ members, q.se.burst_penalty ≤ BORE_MAX_PENALTY) →
      members.length < 2 ^ 32 →
      SeInv (sched_clone_bore t bc pp members now).se) ∧
    (∀ (t : Task), SeInv (reset_task_bore t).se) ∧
    (∀ (t : Task), SeInv t.se →
      t.se.burst_penalty ≤ BORE_MAX_PENALTY ∧ t.se.burst_score ≤ 39 ∧
      1 ≤ t.se.burst_count ∧ t.se.burst_count ≤ 40) ∧
    (∀ (t : Task), effective_prio t ≤ 39) ∧
    (∀ (t : Task), SeInv t.se → 100 ≤ t.static_prio → t.static_prio ≤ 139 →
      effective_prio t = min 39 ((t.static_prio - 100).toNat + t.se.burst_score)) :=
  ⟨fun t d h => seinv_update_curr d t h,
   fun t h => seinv_restart t h,
   fun w m t h => seinv_rescale w m t h,
   fun t bc pp members now h hbc hpp hmem hlen =>
     seinv_clone t bc pp members now h
       (inherit_burst_value_le bc pp members now hbc hpp hmem hlen),
   seinv_reset,
   fun t h => ⟨h.1, h.2.1, h.2.2.1, h.2.2.2.1⟩,
   effective_prio_le_39,
   fun t h h1 h2 => effective_prio_eq t h1 h2 h.2.1⟩

/-- Witness for C2 on a concrete record. -/
theorem claim_C2_witness :
    SeInv (restart_burst ⟨⟨77, 4, 10, 10, 0, 3, ⟨0, 0, 0⟩, ⟨0, 0, 0⟩, 0, 0⟩,
      120, false, true⟩).se :=
  claim_C2_burst_invariant.2.1
    ⟨⟨77, 4, 10, 10, 0, 3, ⟨0, 0, 0⟩, ⟨0, 0, 0⟩, 0, 0⟩, 120, false, true⟩
    (by decide)

/-! ## Lemmas: restart convergence (claim C8) -/

theorem restart_const_prev (c : Nat) (se : SchedEntity) (hc : c < 2 ^ 32)
    (hcnt : 1 ≤ se.burst_count) :
    (restart_const c se).prev_burst_penalty
      = (if se.prev_burst_penalty < c then
          se.prev_burst_penalty +
            (c - se.prev_burst_penalty + se.burst_count - 1) / se.burst_count
         else
          se.prev_burst_penalty -
            (se.prev_burst_penalty - c + se.burst_count - 1) / se.burst_count) ∧
    (restart_const c se).burst_count
      = (if se.burst_count < BORE_SMOOTHNESS then se.burst_count + 1
         else BORE_SMOOTHNESS) := by
  unfold restart_const __restart_burst
  constructor
  · show binary_smooth c se.prev_burst_penalty se.burst_count = _
    rw [binary_smooth_eq c se.prev_burst_penalty se.burst_count hcnt hc]
  · rfl

theorem restart_iter_inv (c : Nat) (se : SchedEntity) (hc : c < 2 ^ 32)
    (hcnt : 1 ≤ se.burst_count) (hprev : se.prev_burst_penalty < 2 ^ 32) :
    ∀ n, 1 ≤ (restart_iter c se n).burst_count ∧
      (restart_iter c se n).prev_burst_penalty < 2 ^ 32 := by
  intro n
  induction n with
  | zero => exact ⟨hcnt, hprev⟩
  | succ n ih =>
    obtain ⟨ih1, ih2⟩ := ih
    obtain ⟨p1, p2⟩ := restart_const_prev c (restart_iter c se n) hc ih1
    have hE : restart_iter c se (n + 1) = restart_const c (restart_iter c se n) := rfl
    have h40 : BORE_SMOOTHNESS = 40 := rfl
    constructor
    · rw [hE, p2]
      by_cases hlt : (restart_iter c se n).burst_count < BORE_SMOOTHNESS
      · rw [if_pos hlt]; omega
      · rw [if_neg hlt]; omega
    · rw [hE, p1]
      by_cases hlt : (restart_iter c se n).prev_burst_penalty < c
      · rw [if_pos hlt]
        have h2 := ceil_div_le_self (c - (restart_iter c se n).prev_burst_penalty)
          (restart_iter c se n).burst_count ih1 (by omega)
        omega
      · rw [if_neg hlt]
        have hs := Nat.sub_le (restart_iter c se n).prev_burst_penalty
          (((restart_iter c se n).prev_burst_penalty - c
            + (restart_iter c se n).burst_count - 1) / (restart_iter c se n).burst_count)
        omega

theorem restart_const_dist (c : Nat) (se : SchedEntity) (hc : c < 2 ^ 32)
    (hcnt : 1 ≤ se.burst_count) :
    pdist (restart_const c se).prev_burst_penalty c
      ≤ pdist se.prev_burst_penalty c - 1 := by
  obtain ⟨p1, p2⟩ := restart_const_prev c se hc hcnt
  rw [p1]
  by_cases hlt : se.prev_burst_penalty < c
  · rw [if_pos hlt]
    have h1 := ceil_div_pos (c - se.prev_burst_penalty) se.burst_count hcnt (by omega)
    have h2 := ceil_div_le_self (c - se.prev_burst_penalty) se.burst_count hcnt (by omega)
    unfold pdist
    omega
  · rcases Nat.lt_or_ge c se.prev_burst_penalty with hgt | hge
    · rw [if_neg hlt]
      have h1 := ceil_div_pos (se.prev_burst_penalty - c) se.burst_count hcnt (by omega)
      have h2 := ceil_div_le_self (se.prev_burst_penalty - c) se.burst_count hcnt (by omega)
      unfold pdist
      omega
    · rw [if_neg hlt]
      have hpc : se.prev_burst_penalty = c := by omega
      have h0 : (se.prev_burst_penalty - c + se.burst_count - 1) / se.burst_count = 0 := by
        apply Nat.div_eq_of_lt
        omega
      unfold pdist
      omega

theorem restart_iter_dist (c : Nat) (se : SchedEntity) (hc : c < 2 ^ 32)
    (hcnt : 1 ≤ se.burst_count) (hprev : se.prev_burst_penalty < 2 ^ 32) :
    ∀ n, pdist (restart_iter c se n).prev_burst_penalty c
      ≤ pdist se.prev_burst_penalty c - n := by
  intro n
  induction n with
  | zero => exact le_refl _
  | succ n ih =>
    have hinv := restart_iter_inv c se hc hcnt hprev n
    have hstep := restart_const_dist c (restart_iter c se n) hc hinv.1
    have hE : restart_iter c se (n + 1) = restart_const c (restart_iter c se n) := rfl
    rw [hE]
    omega

/-- C8: iterating Restart with `curr_burst_penalty` pinned to a constant `c`
moves `prev_burst_penalty` monotonically toward `c` (the distance shrinks by
at least one per step while nonzero) and reaches `c` exactly after at most
the initial distance many steps. -/
theorem claim_C8_restart_convergence (se : SchedEntity) (c : Nat) (hc : c < 2 ^ 32)
    (hcnt : 1 ≤ se.burst_count) (hprev : se.prev_burst_penalty < 2 ^ 32) :
    (∀ n, pdist (restart_iter c se (n + 1)).prev_burst_penalty c
        ≤ pdist (restart_iter c se n).prev_burst_penalty c) ∧
    (∀ n, pdist (restart_iter c se n).prev_burst_penalty c
        ≤ pdist se.prev_burst_penalty c - n) ∧
    (∀ n, pdist se.prev_burst_penalty c ≤ n →
        (restart_iter c se n).prev_burst_penalty = c) := by
  have hinv := restart_iter_inv c se hc hcnt hprev
  have hdist := restart_iter_dist c se hc hcnt hprev
  refine ⟨?_, hdist, ?_⟩
  · intro n
    have hstep := restart_const_dist c (restart_iter c se n) hc (hinv n).1
    have hE : restart_iter c se (n + 1) = restart_const c (restart_iter c se n) := rfl
    rw [hE]
    omega
  · intro n hn
    have hd := hdist n
    have hz : pdist (restart_iter c se n).prev_burst_penalty c = 0 := by omega
    unfold pdist at hz
    omega

/-- Witness for C8 on a concrete record. -/
theorem claim_C8_witness :
    (restart_iter 7 ⟨0, 100, 0, 0, 0, 1, ⟨0, 0, 0⟩, ⟨0, 0, 0⟩, 0, 0⟩
        100).prev_burst_penalty = 7 :=
  (claim_C8_restart_convergence ⟨0, 100, 0, 0, 0, 1, ⟨0, 0, 0⟩, ⟨0, 0, 0⟩, 0, 0⟩ 7
    (by decide) (by decide) (by decide)).2.2 100 (by decide)

/-! ## Lemmas: fork inheritance (claim C5) -/

/-- C5: forking an eligible task whose record was freshly reset (the host
zeroes the burst record at task creation, §3 lifecycle) sets
`prev_burst_penalty = burst_penalty = max 0 inherited`, `burst_count = 1`,
and zeroes both cache timestamps; the inherited value is the consulted
cache's value: recomputed as `max(average of eligible members' penalties,
the aggregation target's own penalty)` when the cache is expired, the cached
value otherwise. -/
theorem claim_C5_sched_clone_bore (t0 : Task) (bc : SchedBurstCache) (pp : Nat)
    (members : List Task) (now : Nat) (he : t0.eligible = true) :
    (sched_clone_bore (reset_task_bore t0) bc pp members now).se.prev_burst_penalty
      = max 0 (inherit_burst bc pp members now).value ∧
    (sched_clone_bore (reset_task_bore t0) bc pp members now).se.burst_penalty
      = max 0 (inherit_burst bc pp members now).value ∧
    (sched_clone_bore (reset_task_bore t0) bc pp members now).se.burst_count = 1 ∧
    (sched_clone_bore (reset_task_bore t0) bc pp members
        now).se.child_burst.timestamp = 0 ∧
    (sched_clone_bore (reset_task_bore t0) bc pp members
        now).se.group_burst.timestamp = 0 ∧
    (bore_cache_expired bc now = true →
      (inherit_burst bc pp members now).value
        = max (if (eligible_penalties members).length % U32_MOD = 0 then 0
               else ((eligible_penalties members).sum % U32_MOD)
                 / ((eligible_penalties members).length % U32_MOD)) pp) ∧
    (bore_cache_expired bc now = false →
      (inherit_burst bc pp members now).value = bc.value) := by
  have he' : (reset_task_bore t0).eligible = true := by
    have hE : (reset_task_bore t0).eligible = t0.eligible := rfl
    rw [hE, he]
  obtain ⟨c1, c2, c3, c4, c5, c6, c7, c8⟩ :=
    sched_clone_bore_se (reset_task_bore t0) bc pp members now he'
  have h0 : (__restart_burst (reset_task_bore t0).se).prev_burst_penalty = 0 := by
    obtain ⟨r1, _, _, _, _⟩ := __restart_burst_se (reset_task_bore t0).se
    rw [r1]
    show binary_smooth 0 0 1 = 0
    decide
  refine ⟨?_, ?_, c3, c7, c8, ?_, ?_⟩
  · rw [c1, h0]
  · rw [c2, h0]
  · intro hx
    unfold inherit_burst
    rw [if_pos hx]
    unfold aggregate_burst_cache update_burst_cache
    rfl
  · intro hx
    unfold inherit_burst
    rw [if_neg (by rw [hx]; exact Bool.false_ne_true)]

/-- Witness for C5 on concrete data. -/
theorem claim_C5_witness :
    (sched_clone_bore
        (reset_task_bore ⟨⟨9, 9, 9, 9, 9, 9, ⟨1, 1, 1⟩, ⟨1, 1, 1⟩, 0, 0⟩,
          120, false, true⟩) ⟨5, 1, 0⟩ 3 [] 12345).se.prev_burst_penalty
      = max 0 (inherit_burst ⟨5, 1, 0⟩ 3 [] 12345).value :=
  (claim_C5_sched_clone_bore ⟨⟨9, 9, 9, 9, 9, 9, ⟨1, 1, 1⟩, ⟨1, 1, 1⟩, 0, 0⟩,
      120, false, true⟩ ⟨5, 1, 0⟩ 3 [] 12345 (by decide)).1

/-! ## Lemmas: best-candidate folds (claims C6, C7) -/

theorem sss_fold_max_cons (f : Nat → Int) (init : Nat × Int) (c : Nat) (l : List Nat) :
    sss_fold_max f init (c :: l)
      = sss_fold_max f (if init.2 < f c then (c, f c) else init) l := rfl

theorem sss_fold_max_init_le (f : Nat → Int) (init : Nat × Int) (l : List Nat) :
    init.2 ≤ (sss_fold_max f init l).2 := by
  induction l generalizing init with
  | nil => exact le_refl _
  | cons c l ih =>
    rw [sss_fold_max_cons]
    by_cases h : init.2 < f c
    · rw [if_pos h]
      exact le_trans (le_of_lt h) (ih (c, f c))
    · rw [if_neg h]
      exact ih init

theorem sss_fold_max_ge (f : Nat → Int) (init : Nat × Int) (l : List Nat) :
    ∀ c ∈ l, f c ≤ (sss_fold_max f init l).2 := by
  induction l generalizing init with
  | nil => intro c hc; cases hc
  | cons a l ih =>
    intro c hc
    rw [sss_fold_max_cons]
    rcases List.mem_cons.mp hc with rfl | hmem
    · by_cases h : init.2 < f c
      · rw [if_pos h]
        exact sss_fold_max_init_le f (c, f c) l
      · rw [if_neg h]
        have h2 := sss_fold_max_init_le f init l
        omega
    · exact ih _ c hmem

theorem sss_fold_max_mem (f : Nat → Int) (init : Nat × Int) (l : List Nat) :
    sss_fold_max f init l = init ∨
      ((sss_fold_max f init l).1 ∈ l ∧
        (sss_fold_max f init l).2 = f (sss_fold_max f init l).1) := by
  induction l generalizing init with
  | nil => exact Or.inl rfl
  | cons a l ih =>
    rw [sss_fold_max_cons]
    by_cases h : init.2 < f a
    · rw [if_pos h]
      rcases ih (a, f a) with heq | ⟨hm, hv⟩
      · right
        rw [heq]
        exact ⟨List.mem_cons_self a l, rfl⟩
      · right
        exact ⟨List.mem_cons_of_mem a hm, hv⟩
    · rw [if_neg h]
      rcases ih init with heq | ⟨hm, hv⟩
      · exact Or.inl heq
      · exact Or.inr ⟨List.mem_cons_of_mem a hm, hv⟩

theorem sss_fold_max_const (f : Nat → Int) (init : Nat × Int) (l : List Nat)
    (h : ∀ c ∈ l, f c ≤ init.2) : sss_fold_max f init l = init := by
  induction l generalizing init with
  | nil => rfl
  | cons a l ih =>
    rw [sss_fold_max_cons]
    have ha : f a ≤ init.2 := h a (List.mem_cons_self a l)
    rw [if_neg (by omega)]
    exact ih init (fun c hc => h c (List.mem_cons_of_mem a hc))

theorem sss_fold_max_first (f : Nat → Int) (init : Nat × Int) (l1 : List Nat)
    (x : Nat) (l2 : List Nat) (hx : init.2 < f x) (h1 : ∀ y ∈ l1, f y < f x)
    (h2 : ∀ y ∈ l2, f y ≤ f x) :
    sss_fold_max f init (l1 ++ x :: l2) = (x, f x) := by
  have happ : sss_fold_max f init (l1 ++ x :: l2)
      = sss_fold_max f (sss_fold_max f init l1) (x :: l2) := by
    unfold sss_fold_max
    exact List.foldl_append _ _ _ _
  rw [happ]
  have hr1 : (sss_fold_max f init l1).2 < f x := by
    rcases sss_fold_max_mem f init l1 with heq | ⟨hm, hv⟩
    · rw [heq]; exact hx
    · rw [hv]; exact h1 _ hm
  rw [sss_fold_max_cons, if_pos hr1]
  exact sss_fold_max_const f (x, f x) l2 h2

theorem sss_fold_min_cons (f : Nat → Int) (init : Nat × Int) (c : Nat) (l : List Nat) :
    sss_fold_min f init (c :: l)
      = sss_fold_min f (if f c < init.2 then (c, f c) else init) l := rfl

theorem sss_fold_min_le_init (f : Nat → Int) (init : Nat × Int) (l : List Nat) :
    (sss_fold_min f init l).2 ≤ init.2 := by
  induction l generalizing init with
  | nil => exact le_refl _
  | cons c l ih =>
    rw [sss_fold_min_cons]
    by_cases h : f c < init.2
    · rw [if_pos h]
      exact le_trans (ih (c, f c)) (le_of_lt h)
    · rw [if_neg h]
      exact ih init

theorem sss_fold_min_le (f : Nat → Int) (init : Nat × Int) (l : List Nat) :
    ∀ c ∈ l, (sss_fold_min f init l).2 ≤ f c := by
  induction l generalizing init with
  | nil => intro c hc; cases hc
  | cons a l ih =>
    intro c hc
    rw [sss_fold_min_cons]
    rcases List.mem_cons.mp hc with rfl | hmem
    · by_cases h : f c < init.2
      · rw [if_pos h]
        exact sss_fold_min_le_init f (c, f c) l
      · rw [if_neg h]
        have h2 := sss_fold_min_le_init f init l
        omega
    · exact ih _ c hmem

theorem sss_fold_min_mem (f : Nat → Int) (init : Nat × Int) (l : List Nat) :
    sss_fold_min f init l = init ∨
      ((sss_fold_min f init l).1 ∈ l ∧
        (sss_fold_min f init l).2 = f (sss_fold_min f init l).1) := by
  induction l generalizing init with
  | nil => exact Or.inl rfl
  | cons a l ih =>
    rw [sss_fold_min_cons]
    by_cases h : f a < init.2
    · rw [if_pos h]
      rcases ih (a, f a) with heq | ⟨hm, hv⟩
      · right
        rw [heq]
        exact ⟨List.mem_cons_self a l, rfl⟩
      · right
        exact ⟨List.mem_cons_of_mem a hm, hv⟩
    · rw [if_neg h]
      rcases ih init with heq | ⟨hm, hv⟩
      · exact Or.inl heq
      · exact Or.inr ⟨List.mem_cons_of_mem a hm, hv⟩

/-! ## Claims about the placement selectors -/

theorem fair_select_eq_fold (env : FairEnv) (p : FairTask) (prev_cpu : Nat)
    (wf : WakeFlags) (hne : fair_candidates env p ≠ [])
    (hfast : fair_fast_path env p wf = false) :
    sss_select_task_rq_fair env p prev_cpu wf
      = (sss_fold_max (fair_factor env p prev_cpu wf (fair_affine env p wf))
          (prev_cpu, 0) (fair_candidates env p)).1 := by
  unfold sss_select_task_rq_fair
  rw [if_neg hne, if_neg (by rw [hfast]; exact Bool.false_ne_true)]

/-- C6: off the fast path with a non-empty candidate set, the fair selector
returns the candidate with the strictly highest score; on ties the candidate
evaluated first wins, and the previous-cpu default persists whenever no
candidate's score strictly beats the default's initial score 0. -/
theorem claim_C6_fair_select (env : FairEnv) (p : FairTask) (prev_cpu : Nat)
    (wf : WakeFlags) (hne : fair_candidates env p ≠ [])
    (hfast : fair_fast_path env p wf = false) :
    ((∃ c ∈ fair_candidates env p,
        0 < fair_factor env p prev_cpu wf (fair_affine env p wf) c) →
      sss_select_task_rq_fair env p prev_cpu wf ∈ fair_candidates env p ∧
      (∀ c ∈ fair_candidates env p,
        fair_factor env p prev_cpu wf (fair_affine env p wf) c
          ≤ fair_factor env p prev_cpu wf (fair_affine env p wf)
              (sss_select_task_rq_fair env p prev_cpu wf))) ∧
    ((∀ c ∈ fair_candidates env p,
        fair_factor env p prev_cpu wf (fair_affine env p wf) c ≤ 0) →
      sss_select_task_rq_fair env p prev_cpu wf = prev_cpu) ∧
    (∀ (l1 : List Nat) (x : Nat) (l2 : List Nat),
      fair_candidates env p = l1 ++ x :: l2 →
      0 < fair_factor env p prev_cpu wf (fair_affine env p wf) x →
      (∀ y ∈ l1, fair_factor env p prev_cpu wf (fair_affine env p wf) y
        < fair_factor env p prev_cpu wf (fair_affine env p wf) x) →
      (∀ y ∈ l2, fair_factor env p prev_cpu wf (fair_affine env p wf) y
        ≤ fair_factor env p prev_cpu wf (fair_affine env p wf) x) →
      sss_select_task_rq_fair env p prev_cpu wf = x) := by
  have hsel := fair_select_eq_fold env p prev_cpu wf hne hfast
  refine ⟨?_, ?_, ?_⟩
  · rintro ⟨c, hc, hpos⟩
    rw [hsel]
    rcases sss_fold_max_mem (fair_factor env p prev_cpu wf (fair_affine env p wf))
        (prev_cpu, 0) (fair_candidates env p) with heq | ⟨hm, hv⟩
    · exfalso
      have hge := sss_fold_max_ge (fair_factor env p prev_cpu wf (fair_affine env p wf))
        (prev_cpu, 0) (fair_candidates env p) c hc
      rw [heq] at hge
      have hz : ((prev_cpu, (0:Int))).2 = 0 := rfl
      omega
    · refine ⟨hm, ?_⟩
      intro d hd
      have hge := sss_fold_max_ge (fair_factor env p prev_cpu wf (fair_affine env p wf))
        (prev_cpu, 0) (fair_candidates env p) d hd
      omega
  · intro h
    rw [hsel, sss_fold_max_const _ _ _ (fun c hc => h c hc)]
  · intro l1 x l2 hsplit hpos hl1 hl2
    rw [hsel, hsplit,
      sss_fold_max_first _ _ l1 x l2 hpos hl1 hl2]

/-- Witness for C6: two active CPUs with distinct remaining capacity. -/
theorem claim_C6_witness :
    sss_select_task_rq_fair
        ⟨2, fun _ => true, 0, fun _ => 1024, fun c => if c = 0 then 600 else 100,
          fun _ => 0, fun _ => 0, fun _ _ => false, fun _ => none, 4, 4, false⟩
        ⟨fun _ => true, 0, false, false⟩ 0 ⟨false, false, false, false, false⟩ = 1 := by
  have h := (claim_C6_fair_select
    ⟨2, fun _ => true, 0, fun _ => 1024, fun c => if c = 0 then 600 else 100,
      fun _ => 0, fun _ => 0, fun _ _ => false, fun _ => none, 4, 4, false⟩
    ⟨fun _ => true, 0, false, false⟩ 0 ⟨false, false, false, false, false⟩
    (by decide) (by decide)).2.2 [0] 1 [] (by decide) (by decide)
    (by decide) (by decide)
  exact h

theorem rt_select_eq_fold (env : RtEnv) (p : RtTask) (prev_cpu : Nat)
    (wf : WakeFlags) (hne0 : rt_initial_candidates env p ≠ []) :
    sss_select_task_rq_rt env p prev_cpu wf
      = (sss_fold_min (rt_factor env p prev_cpu) (prev_cpu, 4294967295)
          (rt_candidates env p prev_cpu wf)).1 := by
  unfold sss_select_task_rq_rt
  rw [if_neg hne0]

/-- C7: each RT candidate's score is the CPU's pressure accumulator plus the
waking task's priority weight `MAX_RT_PRIORITY - normal_prio` unless the
candidate already hosts the task; the candidate with the strictly lowest
score wins; and in the concrete two-CPU scenario (accumulators 10 and 5,
task not queued) the selector returns CPU 1, then after `AddFactor(1, 90)`
raises CPU 1's accumulator to 15 > 10, it returns CPU 0. -/
theorem claim_C7_rt_select (env : RtEnv) (p : RtTask) (prev_cpu : Nat)
    (wf : WakeFlags) :
    (∀ cpu, rt_factor env p prev_cpu cpu
        = env.bank cpu + (if p.queued = true ∧ cpu = prev_cpu then 0
            else MAX_RT_PRIORITY - p.normal_prio)) ∧
    (rt_initial_candidates env p ≠ [] →
      (∃ c ∈ rt_candidates env p prev_cpu wf,
        rt_factor env p prev_cpu c < 4294967295) →
      sss_select_task_rq_rt env p prev_cpu wf ∈ rt_candidates env p prev_cpu wf ∧
      (∀ c ∈ rt_candidates env p prev_cpu wf,
        rt_factor env p prev_cpu (sss_select_task_rq_rt env p prev_cpu wf)
          ≤ rt_factor env p prev_cpu c)) ∧
    (sss_select_task_rq_rt rtDemoEnv rtDemoTask 0 rtDemoFlags = 1 ∧
      rtDemoEnv2.bank 1 = 15 ∧ rtDemoEnv.bank 0 < rtDemoEnv2.bank 1 ∧
      sss_select_task_rq_rt rtDemoEnv2 rtDemoTask 0 rtDemoFlags = 0) := by
  refine ⟨?_, ?_, by decide⟩
  · intro cpu
    unfold rt_factor
    by_cases hq : p.queued = true
    · rw [if_pos hq]
      by_cases hc : cpu = prev_cpu
      · rw [if_neg (by omega : ¬ cpu ≠ prev_cpu),
          if_pos (⟨hq, hc⟩ : p.queued = true ∧ cpu = prev_cpu)]
        omega
      · rw [if_pos hc, if_neg (fun hand => hc hand.2)]
    · rw [if_neg hq, if_neg (fun hand => hq hand.1)]
  · intro hne0 ⟨c, hc, hlt⟩
    have hsel := rt_select_eq_fold env p prev_cpu wf hne0
    rw [hsel]
    rcases sss_fold_min_mem (rt_factor env p prev_cpu) (prev_cpu, 4294967295)
        (rt_candidates env p prev_cpu wf) with heq | ⟨hm, hv⟩
    · exfalso
      have hle := sss_fold_min_le (rt_factor env p prev_cpu) (prev_cpu, 4294967295)
        (rt_candidates env p prev_cpu wf) c hc
      rw [heq] at hle
      have hz : ((prev_cpu, (4294967295:Int))).2 = 4294967295 := rfl
      omega
    · refine ⟨hm, ?_⟩
      intro d hd
      have hle := sss_fold_min_le (rt_factor env p prev_cpu) (prev_cpu, 4294967295)
        (rt_candidates env p prev_cpu wf) d hd
      omega

/-- Witness for C7's conditional part, on the demo environment. -/
theorem claim_C7_witness :
    sss_select_task_rq_rt rtDemoEnv rtDemoTask 0 rtDemoFlags
        ∈ rt_candidates rtDemoEnv rtDemoTask 0 rtDemoFlags :=
  ((claim_C7_rt_select rtDemoEnv rtDemoTask 0 rtDemoFlags).2.1 (by decide)
    ⟨1, by decide, by decide⟩).1

/-- C9: with an empty `allowed ∩ active` intersection, both selectors fall
back to the first CPU named in the task's allowed mask, regardless of that
CPU's activity. -/
theorem claim_C9_empty_intersection :
    (∀ (env : FairEnv) (p : FairTask) (prev_cpu : Nat) (wf : WakeFlags),
      fair_candidates env p = [] →
      sss_select_task_rq_fair env p prev_cpu wf
        = cpumask_first env.nr_cpus p.allowed) ∧
    (∀ (env : RtEnv) (p : RtTask) (prev_cpu : Nat) (wf : WakeFlags),
      rt_initial_candidates env p = [] →
      sss_select_task_rq_rt env p prev_cpu wf
        = cpumask_first env.nr_cpus p.allowed) := by
  constructor
  · intro env p prev_cpu wf h
    unfold sss_select_task_rq_fair
    rw [if_pos h]
  · intro env p prev_cpu wf h
    unfold sss_select_task_rq_rt
    rw [if_pos h]

/-- Witness for C9: one allowed but inactive CPU. -/
theorem claim_C9_witness :
    sss_select_task_rq_fair
        ⟨2, fun _ => false, 0, fun _ => 1024, fun _ => 0, fun _ => 0, fun _ => 0,
          fun _ _ => false, fun _ => none, 4, 4, false⟩
        ⟨fun c => c = 1, 0, false, false⟩ 0 ⟨false, false, false, false, false⟩
      = cpumask_first 2 (fun c => c = 1) :=
  claim_C9_empty_intersection.1
    ⟨2, fun _ => false, 0, fun _ => 1024, fun _ => 0, fun _ => 0, fun _ => 0,
      fun _ _ => false, fun _ => none, 4, 4, false⟩
    ⟨fun c => c = 1, 0, false, false⟩ 0 ⟨false, false, false, false, false⟩
    (by decide)

/-- C10: `sss_rt_add_factor` then `sss_rt_sub_factor` on the same CPU and
priority leave the pressure bank unchanged (for any in-range s32 bank
value), each adding respectively subtracting `MAX_RT_PRIORITY - normal_prio`. -/
theorem claim_C10_add_sub_inverse (bank : Nat → Int) (cpu : Nat)
    (normal_prio : Int) (c : Nat) (h1 : -(2 ^ 31) ≤ bank c) (h2 : bank c < 2 ^ 31) :
    sss_rt_sub_factor (sss_rt_add_factor bank cpu normal_prio) cpu normal_prio c
      = bank c ∧
    sss_rt_add_factor bank cpu normal_prio cpu
      = wrap32 (bank cpu + (MAX_RT_PRIORITY - normal_prio)) ∧
    sss_rt_sub_factor bank cpu normal_prio cpu
      = wrap32 (bank cpu - (MAX_RT_PRIORITY - normal_prio)) := by
  refine ⟨?_, by unfold sss_rt_add_factor; rw [if_pos rfl],
    by unfold sss_rt_sub_factor; rw [if_pos rfl]⟩
  unfold sss_rt_sub_factor sss_rt_add_factor
  by_cases hc : c = cpu
  · rw [if_pos hc, if_pos hc]
    unfold wrap32
    omega
  · rw [if_neg hc, if_neg hc]

/-- Witness for C10 at a concrete bank. -/
theorem claim_C10_witness :
    sss_rt_sub_factor (sss_rt_add_factor (fun _ => (7:Int)) 0 50) 0 50 0 = 7 :=
  (claim_C10_add_sub_inverse (fun _ => (7:Int)) 0 50 0 (by norm_num)
    (by norm_num)).1

end KernelSched
